import Mathlib

/-!
Verification development for the RPiModelTrainController repository.

The definitions below are a shallow embedding of the two transport scripts:
`RPi_TCPServer_V2.py` (the Raspberry Pi TCP server) and `JMRI_Script_V2.py`
(the JMRI TCP client).  Strings are modelled as lists of characters; the
Python string operations used by the code (`split`, `replace`, `rfind`,
slicing, `int(...)`, `str.upper`, `str.startswith`, `re.search` with the two
concrete patterns of the source) are reproduced below.  Hardware side effects
(servo writes, MCP23017 pins, gpiozero buttons) are recorded as events, and a
hardware oracle decides which hardware calls succeed, mirroring the
`try/except` structure of the source.
-/

namespace TrainCtl

abbrev Str := List Char

/-- Python `s.replace(" ", "")` as used on received chunks. -/
def stripSpaces (s : Str) : Str := s.filter (fun c => c ≠ ' ')

/-- Python `s.split(d)` for a one-character separator `d`:
`"".split(d) = [""]`, separators at the ends produce empty fields. -/
def splitChar (d : Char) : Str → List Str
  | [] => [[]]
  | c :: cs =>
    if c = d then [] :: splitChar d cs
    else
      match splitChar d cs with
      | [] => [[c]]
      | s :: rest => (c :: s) :: rest

/-- Index of the last occurrence of `d`, mirroring Python `s.rfind(d)`
(`none` stands for Python's `-1`). -/
def rfindIdx (d : Char) : Str → Option Nat
  | [] => none
  | c :: cs =>
    match rfindIdx d cs with
    | some i => some (i + 1)
    | none => if c = d then some 0 else none

/-- One receive-loop body on a successful non-empty read
(`RPi_TCPServer_V2.py` lines 348-358, identical in `JMRI_Script_V2.py`
lines 274-283): strip spaces, append to the inbound buffer, split on `|`,
dispatch every non-empty field, then set the buffer to
`received[received.rfind("|"):]` (Python slice; `rfind = -1` keeps the last
character). Returns the dispatched segments and the new buffer. -/
def recvStep (buffer chunk : Str) : List Str × Str :=
  let r := buffer ++ stripSpaces chunk
  let cmds := splitChar '|' r
  let dispatched := cmds.filter (fun c => c ≠ [])
  let newBuf :=
    match rfindIdx '|' r with
    | some i => r.drop i
    | none => r.drop (r.length - 1)
  (dispatched, newBuf)

/-- Folding `recvStep` over a sequence of successful non-empty socket reads,
collecting every dispatched segment in order. -/
def recvChunks (buffer : Str) : List Str → List Str × Str
  | [] => ([], buffer)
  | ch :: rest =>
    let p := recvStep buffer ch
    let q := recvChunks p.2 rest
    (p.1 ++ q.1, q.2)

/-- Value of a decimal digit character. -/
def digitVal (c : Char) : Nat := c.toNat - '0'.toNat

/-- Decimal value of a digit string (most significant digit first). -/
def digitsToNat (s : Str) : Nat := s.foldl (fun a c => a * 10 + digitVal c) 0

/-- Python `int(s)` restricted to the shapes this code can meet:
an optional sign followed by a non-empty run of decimal digits
(`none` models the `ValueError` caught by the surrounding `except`). -/
def pyIntDec (s : Str) : Option Int :=
  match s with
  | [] => none
  | c :: rest =>
    if c = '-' then
      if rest ≠ [] ∧ rest.all Char.isDigit then some (-(digitsToNat rest : Int)) else none
    else if c = '+' then
      if rest ≠ [] ∧ rest.all Char.isDigit then some (digitsToNat rest : Int) else none
    else
      if (c :: rest).all Char.isDigit then some (digitsToNat (c :: rest) : Int) else none

def isHexDigitChar (c : Char) : Bool :=
  c.isDigit ∨ ('a' ≤ c ∧ c ≤ 'f') ∨ ('A' ≤ c ∧ c ≤ 'F')

def hexDigitVal (c : Char) : Nat :=
  if c.isDigit then digitVal c
  else if 'a' ≤ c ∧ c ≤ 'f' then c.toNat - 'a'.toNat + 10
  else c.toNat - 'A'.toNat + 10

/-- Python `int(s, 16)`: an optional `0x`/`0X` marker followed by a non-empty
run of hex digits (`none` models the `ValueError`). -/
def pyIntHex (s : Str) : Option Nat :=
  let t : Str :=
    match s with
    | '0' :: 'x' :: rest => rest
    | '0' :: 'X' :: rest => rest
    | _ => s
  if t ≠ [] ∧ t.all isHexDigitChar then
    some (t.foldl (fun a c => a * 16 + hexDigitVal c) 0)
  else none

/-- Python `str(n)` for naturals. -/
def natToChars (n : Nat) : Str := Nat.toDigits 10 n

/-- Python `str(i)` for integers. -/
def intToChars (i : Int) : Str :=
  if i < 0 then '-' :: natToChars i.natAbs else natToChars i.natAbs

/-- Python `s.upper()`. -/
def upperStr (s : Str) : Str := s.map Char.toUpper

/-- Python `s.startswith(p)` (the pattern is the first argument). -/
def hasPre : Str → Str → Bool
  | [], _ => true
  | _ :: _, [] => false
  | p :: ps, c :: cs => p = c && hasPre ps cs

/-- Match a literal run of characters, returning the rest of the input. -/
def expectLit : Str → Str → Option Str
  | [], s => some s
  | _ :: _, [] => none
  | l :: ls, c :: cs => if l = c then expectLit ls cs else none

/-- Greedy `+` over a character class, failing on an empty match.  For every
class used by the source's two patterns the following literal character is
outside the class, so maximal munch coincides with the regex semantics. -/
def takePlus (p : Char → Bool) (s : Str) : Option (Str × Str) :=
  let t := s.takeWhile p
  if t = [] then none else some (t, s.dropWhile p)

/-- Match of `OUT_TO:([0-9]+)\[([0-9]+)\]\[([0-9]+)\]:([0-1]+)` anchored at
the start of `s`, returning the four capture groups. -/
def matchOutToAt (s : Str) : Option (Str × Str × Str × Str) := do
  let s ← expectLit "OUT_TO:".toList s
  let (g1, s) ← takePlus Char.isDigit s
  let s ← expectLit "[".toList s
  let (g2, s) ← takePlus Char.isDigit s
  let s ← expectLit "][".toList s
  let (g3, s) ← takePlus Char.isDigit s
  let s ← expectLit "]:".toList s
  let (g4, _) ← takePlus (fun c => c = '0' ∨ c = '1') s
  some (g1, g2, g3, g4)

/-- Python `re.search` for the turnout pattern: first position (left to
right) at which the anchored match succeeds. -/
def searchOutTo : Str → Option (Str × Str × Str × Str)
  | [] => none
  | c :: cs =>
    match matchOutToAt (c :: cs) with
    | some r => some r
    | none => searchOutTo cs

def shIdClass (c : Char) : Bool := ('A' ≤ c ∧ c ≤ 'Z') ∨ c.isDigit ∨ c = '-'
def shAddrClass (c : Char) : Bool := c.isDigit ∨ c = 'x'
def shAspectClass (c : Char) : Bool :=
  c = 'r' ∨ c = ',' ∨ c = 'g' ∨ c = 'f' ∨ c = 'd'

/-- Match of `OUT_SH:([A-Z0-9\-]+)\$([0-9x]+)\$R([0-9]+)\$G([0-9]+):([r,g,f,d]+)`
anchored at the start of `s` (the outermost capture group of the source's
pattern is the whole match and is never used), returning the five inner
groups. -/
def matchOutShAt (s : Str) : Option (Str × Str × Str × Str × Str) := do
  let s ← expectLit "OUT_SH:".toList s
  let (g1, s) ← takePlus shIdClass s
  let s ← expectLit "$".toList s
  let (g2, s) ← takePlus shAddrClass s
  let s ← expectLit "$R".toList s
  let (g3, s) ← takePlus Char.isDigit s
  let s ← expectLit "$G".toList s
  let (g4, s) ← takePlus Char.isDigit s
  let s ← expectLit ":".toList s
  let (g5, _) ← takePlus shAspectClass s
  some (g1, g2, g3, g4, g5)

/-- Python `re.search` for the signal-head pattern. -/
def searchOutSh : Str → Option (Str × Str × Str × Str × Str)
  | [] => none
  | c :: cs =>
    match matchOutShAt (c :: cs) with
    | some r => some r
    | none => searchOutSh cs

/-- A background blinking-LED thread, as started for `fr`/`fg` aspects:
it toggles `pin` on board `boardAddr` for signal head `headId` until the
cancellation flag for `headId` is observed and the thread is joined. -/
structure BlinkTask where
  headId : Str
  boardAddr : Nat
  pin : Nat
  deriving DecidableEq

/-- Observable effects of the server's command dispatcher. -/
inductive Ev where
  | send (msg : Str)
  | servoAngle (add : Nat) (angle : Nat)
  | mcpNewBoard (addr : Nat)
  | pinVal (boardAddr pin : Nat) (v : Bool)
  | blinkCancel (id : Str)
  | blinkStart (id : Str) (boardAddr pin : Nat)
  | buttonNew (g : Int)
  deriving DecidableEq

/-- Hardware oracle: which hardware constructor and write calls succeed, and
what a registered input pin currently reads.  `pinErrText` stands for the
`str(err)` of a failing MCP pin operation. -/
structure HwOracle where
  servoKitOk : Bool
  servoWriteOk : Nat → Nat → Bool
  mcpNewOk : Nat → Bool
  pinOk : Bool
  pinErrText : Str
  buttonOk : Int → Bool
  isPressed : Int → Bool

def allOk : HwOracle :=
  { servoKitOk := true, servoWriteOk := fun _ _ => true, mcpNewOk := fun _ => true
    pinOk := true, pinErrText := [], buttonOk := fun _ => true
    isPressed := fun _ => false }

/-- The module-level dictionaries of `RPi_TCPServer_V2.py` together with the
set of live blinking threads (threads that have been started and not yet
joined). -/
structure ServerState where
  serverTURNOUT : List Nat
  serverSignalHead : List Nat
  blinkFlags : List (Str × Bool)
  blinkThreads : List (Str × BlinkTask)
  liveBlinkers : List BlinkTask
  gpioIN : List Int
  gpioOUT : List Int
  deriving DecidableEq

def ServerState.clean : ServerState :=
  { serverTURNOUT := [], serverSignalHead := [], blinkFlags := []
    blinkThreads := [], liveBlinkers := [], gpioIN := [], gpioOUT := [] }

/-- Python dictionary lookup. -/
def dictFind (k : Str) : List (Str × β) → Option β
  | [] => none
  | (k2, v) :: rest => if k = k2 then some v else dictFind k rest

/-- Python dictionary assignment: overwrite in place, else append. -/
def dictInsert (k : Str) (v : β) : List (Str × β) → List (Str × β)
  | [] => [(k, v)]
  | (k2, v2) :: rest =>
    if k = k2 then (k, v) :: rest else (k2, v2) :: dictInsert k v rest

/-- Python `dict.pop(k)` on a dictionary with distinct keys. -/
def dictErase (k : Str) : List (Str × β) → List (Str × β)
  | [] => []
  | (k2, v2) :: rest => if k = k2 then rest else (k2, v2) :: dictErase k rest

/-- Exceptions that can escape `processRecvMsg` (the servo-angle write on
lines 166/169 of `RPi_TCPServer_V2.py` is the only statement of the
dispatcher not wrapped in a `try`). -/
inductive PyExc where
  | servoWriteFail (add angle : Nat)
  deriving DecidableEq

/-- Outcome of one `processRecvMsg` call: a normal return with the updated
dictionaries and the emitted effects, or an uncaught exception escaping the
callback (carrying the effects already performed). -/
inductive DispatchRes where
  | ok (st : ServerState) (evs : List Ev)
  | exc (st : ServerState) (evs : List Ev) (e : PyExc)
  deriving DecidableEq

def DispatchRes.stateOf : DispatchRes → ServerState
  | .ok st _ => st
  | .exc st _ _ => st

def DispatchRes.evsOf : DispatchRes → List Ev
  | .ok _ evs => evs
  | .exc _ evs _ => evs

/-- `OUT_TO` branch of `serverTcpThread_callback.processRecvMsg`
(lines 131-170).  The servo-angle assignment is outside every `try`, so its
failure escapes as an exception instead of an error reply. -/
def handleOutTo (orc : HwOracle) (st : ServerState) (tempMsg : Str)
    (cmdParams : List Str) (inout : Str) : DispatchRes :=
  if cmdParams.length ≠ 3 then
    .ok st [.send (inout ++ ":".toList ++ tempMsg ++
      ":ERROR - Not enough parameters for servo control".toList)]
  else
    match searchOutTo tempMsg with
    | none =>
      .ok st [.send (inout ++ ":".toList ++ tempMsg ++
        ":ERROR - could not parse parameters for servo control".toList)]
    | some (g0, g1, g2, g3) =>
      let servoAdd := digitsToNat g0
      let thrownAngle := digitsToNat g1
      let closedAngle := digitsToNat g2
      let active := digitsToNat g3 = 1
      let write : ServerState → DispatchRes := fun st1 =>
        let angle := if active then closedAngle else thrownAngle
        if orc.servoWriteOk servoAdd angle then
          .ok st1 [.servoAngle servoAdd angle]
        else
          .exc st1 [] (.servoWriteFail servoAdd angle)
      if servoAdd ∈ st.serverTURNOUT then write st
      else if orc.servoKitOk then
        write { st with serverTURNOUT := st.serverTURNOUT ++ [servoAdd] }
      else
        .ok st [.send (inout ++ ":".toList ++ tempMsg ++
          ":ERROR - could not initiate servo controller".toList)]

/-- Lazy MCP23017 board bring-up (lines 207-220): on first use of a board
address, create the board and drive all 16 pins to output-low; `none` is a
failed board constructor. -/
def shBoard (orc : HwOracle) (st : ServerState) (mcpBoardAdd : Nat) :
    Option (ServerState × List Ev) :=
  if mcpBoardAdd ∈ st.serverSignalHead then some (st, [])
  else if orc.mcpNewOk mcpBoardAdd then
    some ({ st with serverSignalHead := st.serverSignalHead ++ [mcpBoardAdd] },
      [.mcpNewBoard mcpBoardAdd] ++
        (List.range 16).map (fun i => Ev.pinVal mcpBoardAdd i false))
  else none

/-- Cancel-and-join of an existing blinking thread for this head id
(lines 224-234): look the thread up, set its control flag, join it (it
leaves the live set), and pop both dictionary entries; `none` is the
`KeyError` of a flag entry without a thread entry. -/
def shCleanup (st1 : ServerState) (signalHeadId : Str) :
    Option (ServerState × List Ev) :=
  match dictFind signalHeadId st1.blinkFlags with
  | none => some (st1, [])
  | some _ =>
    match dictFind signalHeadId st1.blinkThreads with
    | none => none
    | some trd =>
      some ({ st1 with
          blinkFlags := dictErase signalHeadId
            (dictInsert signalHeadId true st1.blinkFlags)
          blinkThreads := dictErase signalHeadId st1.blinkThreads
          liveBlinkers := st1.liveBlinkers.erase trd },
        [.blinkCancel signalHeadId])

/-- Drive the two LED pins according to the aspect code (lines 241-265),
starting a new blinking thread for the flashing aspects. -/
def shAspect (st2 : ServerState) (signalHeadId : Str)
    (mcpBoardAdd redLEDGPIO greenLEDGPIO : Nat) (apperance : Str) :
    ServerState × List Ev :=
  if apperance = "r".toList then
    (st2, [.pinVal mcpBoardAdd redLEDGPIO true, .pinVal mcpBoardAdd greenLEDGPIO false])
  else if apperance = "g".toList then
    (st2, [.pinVal mcpBoardAdd redLEDGPIO false, .pinVal mcpBoardAdd greenLEDGPIO true])
  else if apperance = "fr".toList then
    let task : BlinkTask :=
      { headId := signalHeadId, boardAddr := mcpBoardAdd, pin := redLEDGPIO }
    ({ st2 with
        blinkFlags := dictInsert signalHeadId false st2.blinkFlags
        blinkThreads := dictInsert signalHeadId task st2.blinkThreads
        liveBlinkers := st2.liveBlinkers ++ [task] },
      [.pinVal mcpBoardAdd greenLEDGPIO false,
        .blinkStart signalHeadId mcpBoardAdd redLEDGPIO])
  else if apperance = "fg".toList then
    let task : BlinkTask :=
      { headId := signalHeadId, boardAddr := mcpBoardAdd, pin := greenLEDGPIO }
    ({ st2 with
        blinkFlags := dictInsert signalHeadId false st2.blinkFlags
        blinkThreads := dictInsert signalHeadId task st2.blinkThreads
        liveBlinkers := st2.liveBlinkers ++ [task] },
      [.pinVal mcpBoardAdd redLEDGPIO false,
        .blinkStart signalHeadId mcpBoardAdd greenLEDGPIO])
  else
    (st2, [.pinVal mcpBoardAdd redLEDGPIO false, .pinVal mcpBoardAdd greenLEDGPIO false])

/-- `OUT_SH` processing after the pattern and the board address have been
parsed (lines 199-269 of `RPi_TCPServer_V2.py`): send the debug echo, lazily
bring up the MCP23017 board, cancel and join any blinking thread registered
for this head id, then drive the two pins or start a new blinking thread
according to the aspect code. -/
def shDispatch (orc : HwOracle) (st : ServerState) (tempMsg : Str)
    (signalHeadId : Str) (mcpBoardAdd redLEDGPIO greenLEDGPIO : Nat)
    (apperance : Str) : DispatchRes :=
  let dbg : Ev := .send ("Extracted from Regex - MCPBoardAdd: ".toList ++
    natToChars mcpBoardAdd ++ " red gpio: ".toList ++ natToChars redLEDGPIO ++
    " green gpio: ".toList ++ natToChars greenLEDGPIO ++
    " apperance: ".toList ++ apperance)
  match shBoard orc st mcpBoardAdd with
  | none =>
    .ok st [dbg, .send (tempMsg ++
      ":ERROR - could not initialize board for Signal Head ".toList ++ signalHeadId)]
  | some (st1, evs1) =>
    match shCleanup st1 signalHeadId with
    | none =>
      .ok st1 (dbg :: evs1 ++ [.send (tempMsg ++
        " : ERROR - could not close the thread for blinking LED ".toList ++ signalHeadId)])
    | some (st2, evs2) =>
      if orc.pinOk then
        let pr := shAspect st2 signalHeadId mcpBoardAdd redLEDGPIO greenLEDGPIO apperance
        .ok pr.1 (dbg :: evs1 ++ evs2 ++ pr.2)
      else
        .ok st2 (dbg :: evs1 ++ evs2 ++
          [.send (tempMsg ++ ":ERROR ".toList ++ orc.pinErrText ++
            " - could not set the LED GPIOs board for Signal Head ".toList ++ signalHeadId)])

/-- `OUT_SH` branch of `processRecvMsg` (lines 176-269): run the pattern
search, report a failed search or an unparseable hex board address, and
otherwise delegate to `shDispatch`. -/
def handleOutSh (orc : HwOracle) (st : ServerState) (tempMsg : Str) : DispatchRes :=
  match searchOutSh tempMsg with
  | none =>
    .ok st [.send (tempMsg ++ ":ERROR - regex returned None, or inconsistent groups".toList)]
  | some (g1, g2, g3, g4, g5) =>
    match pyIntHex g2 with
    | none =>
      .ok st [.send (tempMsg ++
        ":ERROR - could not parse due to exception in parsing parameters for Signal Head ".toList
        ++ g1)]
    | some mcpBoardAdd =>
      shDispatch orc st tempMsg g1 mcpBoardAdd (digitsToNat g3) (digitsToNat g4) g5

/-- `IN` branch of `processRecvMsg` (lines 276-307): register the GPIO as an
input on first use and immediately report its current level. -/
def handleIn (orc : HwOracle) (st : ServerState)
    (cmdParams : List Str) (inout : Str) : DispatchRes :=
  let report : ServerState → List Ev → Int → DispatchRes := fun st1 evs pin =>
    if orc.isPressed pin then
      .ok st1 (evs ++ [.send ("IN:".toList ++ intToChars pin ++ ":1".toList)])
    else
      .ok st1 (evs ++ [.send ("IN:".toList ++ intToChars pin ++ ":0".toList)])
  match pyIntDec (cmdParams.getD 1 []) with
  | none =>
    .ok st [.send (inout ++ ":9999:ERROR".toList)]
  | some pin =>
    if cmdParams.length ≠ 2 then
      .ok st [.send (inout ++ ":".toList ++ intToChars pin ++ ":ERROR".toList)]
    else if pin ∈ st.gpioIN then
      report st [] pin
    else
      let st1 :=
        if pin ∈ st.gpioOUT then { st with gpioOUT := st.gpioOUT.erase pin } else st
      if orc.buttonOk pin then
        report { st1 with gpioIN := st1.gpioIN ++ [pin] } [.buttonNew pin] pin
      else
        .ok st1 [.send (inout ++ ":".toList ++ intToChars pin ++ ":ERROR".toList)]

/-- `serverTcpThread_callback.processRecvMsg` (lines 117-307): the server's
command dispatcher for one delimiter-free frame. -/
def processRecvMsg (orc : HwOracle) (st : ServerState) (msg : Str) : DispatchRes :=
  let tempMsg := msg
  let cmdParams := splitChar ':' msg
  let p0 := cmdParams.headD []
  if cmdParams.length < 2 ∨ (hasPre "OUT".toList p0 ∧ hasPre "IN".toList p0) then
    .ok st [.send ("ERROR parsing commpand sent from JMRI ".toList ++ tempMsg)]
  else
    let inout := upperStr p0
    if inout = "OUT_TO".toList then handleOutTo orc st tempMsg cmdParams inout
    else if inout = "OUT_SH".toList then handleOutSh orc st tempMsg
    else if inout = "IN".toList then handleIn orc st cmdParams inout
    else .ok st []

/-- Observable effects of the JMRI client's command dispatcher. -/
inductive ClientEv where
  | sensorUpdate (gpio : Int) (active : Bool)
  | logInvalid (msg : Str)
  deriving DecidableEq

/-- `TcpPeripheral_clientTcpThread_callback.processRecvMsg`
(`JMRI_Script_V2.py` lines 220-235): a three-token `IN` frame updates the
named sensor through `TcpPeripheral_receivedFromDevice`; anything else is
logged as invalid feedback. -/
def clientProcessRecvMsg (msg : Str) : List ClientEv :=
  let m := splitChar ':' msg
  if m.length = 3 ∧ upperStr (m.headD []) = "IN".toList then
    let gpio : Int := (pyIntDec (m.getD 1 [])).getD 9999
    (if m.getD 2 [] = "1".toList then [.sensorUpdate gpio true] else []) ++
    (if m.getD 2 [] = "0".toList then [.sensorUpdate gpio false] else [])
  else [.logInvalid msg]

def MAX_HEARTBEAT_FAIL : Nat := 5

/-- Outcome of one blocking `recv` in the run loop: a chunk of bytes (the
empty chunk is the peer-closed read), a `socket.timeout`, or another
`socket.error`. -/
inductive ReadOutcome where
  | data (chunk : Str)
  | timeout
  | sockError
  deriving DecidableEq

/-- Per-thread state of `serverTcpThread.run`. -/
structure RunState where
  isAtive : Bool
  received : Str
  heartbeatFailCount : Nat
  serverSt : ServerState
  deriving DecidableEq

def initRun : RunState :=
  { isAtive := true, received := [], heartbeatFailCount := 0
    serverSt := ServerState.clean }

/-- Result of one run-loop iteration: the next state, the emitted effects
and whether a dead-link transition (close, mark inactive, reconnect, reset
counter) happened; or the death of the thread by an exception that the
loop's `except socket.timeout` / `except socket.error` clauses do not
catch. -/
inductive RunRes where
  | next (rs : RunState) (evs : List Ev) (deadTransition : Bool)
  | died (evs : List Ev) (e : PyExc)
  deriving DecidableEq

/-- Dispatch of every non-empty split field in order, stopping at the first
uncaught exception (the remaining fields are not processed). -/
def dispatchAll (orc : HwOracle) (st : ServerState) : List Str → DispatchRes
  | [] => .ok st []
  | c :: cs =>
    if c = [] then dispatchAll orc st cs
    else
      match processRecvMsg orc st c with
      | .exc st1 evs e => .exc st1 evs e
      | .ok st1 evs =>
        match dispatchAll orc st1 cs with
        | .ok st2 evs2 => .ok st2 (evs ++ evs2)
        | .exc st2 evs2 e => .exc st2 (evs ++ evs2) e

/-- One body of the `while not self.exit` loop of `serverTcpThread.run`
(lines 345-378), given the outcome of `recv`.  A reconnect is modelled as
succeeding (the accept loop blocks until it does). -/
def runIteration (orc : HwOracle) (rs : RunState) (o : ReadOutcome) : RunRes :=
  match o with
  | .data chunk =>
    if chunk = [] then
      .next { rs with isAtive := true, heartbeatFailCount := 0 } [] true
    else
      let r := rs.received ++ stripSpaces chunk
      let cmds := splitChar '|' r
      match dispatchAll orc rs.serverSt cmds with
      | .exc _ evs e => .died evs e
      | .ok st evs =>
        let newBuf :=
          match rfindIdx '|' r with
          | some i => r.drop i
          | none => r.drop (r.length - 1)
        .next { rs with received := newBuf, heartbeatFailCount := 0, serverSt := st }
          evs false
  | .timeout =>
    let c := rs.heartbeatFailCount + 1
    if c > MAX_HEARTBEAT_FAIL then
      .next { rs with isAtive := true, heartbeatFailCount := 0 } [] true
    else
      .next { rs with heartbeatFailCount := c } [] false
  | .sockError =>
    .next { rs with isAtive := true, heartbeatFailCount := 0 } [] true

/-- Run the loop over a list of read outcomes, counting dead-link
transitions; `none` means the thread died from an uncaught exception. -/
def runSeq (orc : HwOracle) (rs : RunState) :
    List ReadOutcome → Option (RunState × Nat × List Ev)
  | [] => some (rs, 0, [])
  | o :: os =>
    match runIteration orc rs o with
    | .died _ _ => none
    | .next rs1 evs t =>
      match runSeq orc rs1 os with
      | none => none
      | some (rs2, n, evs2) => some (rs2, (if t then 1 else 0) + n, evs ++ evs2)

/-- The two flags shared by `run`, `send` and `stop`. -/
structure LinkFlags where
  isAtive : Bool
  exit : Bool
  deriving DecidableEq

/-- Wire-level effects of `send`/`stop`. -/
inductive SendEv where
  | wire (bytes : Str)
  | closedSock
  | reconnect
  deriving DecidableEq

/-- `TcpPeripheral_clientTcpThread.send` (`JMRI_Script_V2.py` lines
327-340): fail fast when inactive; otherwise write `msg + "|"`, and on a
write failure close, mark inactive and reconnect (which blocks until it
succeeds, setting the flag again).  Returns `self.isAtive`. -/
def clientSend (st : LinkFlags) (msg : Str) (sendOk : Bool) :
    LinkFlags × List SendEv × Bool :=
  if st.isAtive then
    if sendOk then (st, [.wire (msg ++ ['|'])], true)
    else ({ st with isAtive := true }, [.wire (msg ++ ['|']), .closedSock, .reconnect], true)
  else (st, [], false)

/-- The waiting loop of `serverTcpThread.send` (lines 416-417):
`while (not self.isAtive) and (not self.exit): time.sleep(1)`.  `sched t`
gives the flags observed at the `t`-th check; the result is the index of the
first check at which the loop exits, or `none` if it is still sleeping after
`fuel` checks. -/
def serverSendLoop (sched : Nat → LinkFlags) : Nat → Nat → Option Nat
  | 0, _ => none
  | fuel + 1, t =>
    if (sched t).isAtive ∨ (sched t).exit then some t
    else serverSendLoop sched fuel (t + 1)

/-- `serverTcpThread.send` (lines 415-422): wait for the flags, then write
`msg + "|"` only if the link ended up active.  Returns the wire effects and
the number of one-second sleeps performed, or `none` if the call is still
blocked after `fuel` sleeps. -/
def serverSend (sched : Nat → LinkFlags) (fuel : Nat) (msg : Str) :
    Option (List SendEv × Nat) :=
  match serverSendLoop sched fuel 0 with
  | none => none
  | some t =>
    if (sched t).isAtive then some ([.wire (msg ++ ['|'])], t) else some ([], t)

/-- `stop` (server lines 426-435, client lines 344-353): try to close the
socket, swallow any error (including `sock` being `None`), and in the
`finally` block clear `isAtive` and set `exit`. -/
def stop (st : LinkFlags) (closeOk : Bool) : LinkFlags × List SendEv :=
  let _ := st
  ({ isAtive := false, exit := true }, if closeOk then [.closedSock] else [])

/-- Guard of the run loop: `while not self.exit`. -/
def runLoopContinues (f : LinkFlags) : Bool := !f.exit

/-- JMRI turnout states as used by the listener
(`jmri.Turnout.CLOSED/THROWN/UNKNOWN/INCONSISTENT`). -/
inductive TState where
  | closed | thrown | unknown | inconsistent
  deriving DecidableEq, Fintype

/-- State of one `TcpPeripheral_Turnout_Listener`: the last commanded value
this listener itself sent (`None` at construction). -/
structure TOListener where
  turnoutCtrl : Option TState
  deriving DecidableEq, Fintype

/-- Effects of the turnout listener: a `TcpPeripheral_sendToTurnout` call
(`active = true` encodes `1`/closed) and a `turnout.setCommandedState`
call. -/
inductive TOEv where
  | sendTurnout (active : Bool)
  | setCommanded (v : TState)
  deriving DecidableEq

/-- `TcpPeripheral_Turnout_Listener.propertyChange` for a `CommandedState`
event (`JMRI_Script_V2.py` lines 382-399).  `sendOk` is the value returned
by `TcpPeripheral_sendToTurnout`. -/
def propertyChange (l : TOListener) (oldValue newValue : TState) (sendOk : Bool) :
    TOListener × List TOEv :=
  if some newValue ≠ l.turnoutCtrl then
    let evs : List TOEv :=
      if newValue = .closed then [.sendTurnout true]
      else if newValue = .thrown then [.sendTurnout false]
      else []
    let sent : Bool :=
      if newValue = .closed ∨ newValue = .thrown then sendOk else true
    if sent then ({ turnoutCtrl := some newValue }, evs)
    else ({ turnoutCtrl := some oldValue }, evs ++ [.setCommanded oldValue])
  else (l, [])

/-- A parsed `OUT_SH` command as delivered to `shDispatch`. -/
structure SHCmd where
  headId : Str
  board : Nat
  red : Nat
  green : Nat
  app : Str
  deriving DecidableEq

def shStep (st : ServerState) (c : SHCmd) : DispatchRes :=
  shDispatch allOk st [] c.headId c.board c.red c.green c.app

def shRun (cmds : List SHCmd) (st : ServerState) : ServerState :=
  cmds.foldl (fun s c => (shStep s c).stateOf) st

def isBlinkEv : Ev → Bool
  | .blinkCancel _ => true
  | .blinkStart _ _ _ => true
  | _ => false

def blinkEvents (evs : List Ev) : List Ev := evs.filter isBlinkEv

/-- The blinking-thread bookkeeping invariant: the set of live blink threads
is exactly the contents of the `blinkingThreads` dictionary, every
registered thread blinks for the head id it is registered under, the
dictionary keys are distinct, and the `blinkingthreadCtrlFlag` dictionary
has exactly the same keys. -/
def goodSH (st : ServerState) : Prop :=
  st.liveBlinkers = st.blinkThreads.map Prod.snd ∧
  (∀ kv ∈ st.blinkThreads, kv.2.headId = kv.1) ∧
  (st.blinkThreads.map Prod.fst).Nodup ∧
  st.blinkFlags.map Prod.fst = st.blinkThreads.map Prod.fst

/-- No two live blink threads share a head id. -/
def atMostOnePerHead (st : ServerState) : Prop :=
  st.liveBlinkers.Pairwise (fun a b => a.headId ≠ b.headId)

instance (st : ServerState) : Decidable (goodSH st) := by
  unfold goodSH; infer_instance

instance (st : ServerState) : Decidable (atMostOnePerHead st) := by
  unfold atMostOnePerHead; infer_instance

/-- The blink thread a parsed `OUT_SH` command starts (for flashing
aspects). -/
def SHCmd.task (c : SHCmd) : BlinkTask :=
  { headId := c.headId, boardAddr := c.board
    pin := if c.app = "fr".toList then c.red else c.green }

def flashingApp (a : Str) : Prop := a = "fr".toList ∨ a = "fg".toList

instance (a : Str) : Decidable (flashingApp a) := by
  unfold flashingApp; infer_instance

/-- An oracle on which every hardware call succeeds except the servo-angle
write (a hardware or out-of-range failure of
`serverTURNOUT[servoAdd].servo[servoAdd].angle = ...`). -/
def failWriteOrc : HwOracle := { allOk with servoWriteOk := fun _ _ => false }

/-- A link that never becomes active and is never told to exit. -/
def neverActive : Nat → LinkFlags := fun _ => { isAtive := false, exit := false }

/-- A link that becomes active only after 50 one-second waits. -/
def lateActive : Nat → LinkFlags := fun t => { isAtive := decide (50 ≤ t), exit := false }

end TrainCtl

/-- C1: the Link Manager is claimed never to dispatch a segment lacking its
trailing delimiter, and to make any delimiter-free message round-trip however
`m ++ "|"` is split across reads.  The code violates this: delivering the
frame `"ABC|"` as the chunks `"AB"` then `"C|"` dispatches `"AB"` immediately
(before any delimiter arrived) and then `"BC"`, never the message `"ABC"`.
This contradicts the source's own header comment (lines 33-34 of
`RPi_TCPServer_V2.py`). -/
theorem C1_incomplete_segment_dispatched :
    (TrainCtl.recvStep [] ("AB".toList)).1 = ["AB".toList] ∧
    TrainCtl.recvChunks [] ["AB".toList, "C|".toList] =
      (["AB".toList, "BC".toList], "|".toList) := by decide

/-- C9: heartbeat (space) insertion between complete frames is claimed to be
invisible to decoding.  The code violates this: the frames `"AB|"`, `"C|"`
with one heartbeat space between them, delivered as the chunks `"AB| C"` and
`"|"`, decode to `AB, C, C` (the pending fragment `C` is dispatched twice),
while the space-free stream `"AB|C|"` decodes to `AB, C`. -/
theorem C9_heartbeat_changes_decode :
    (TrainCtl.recvChunks [] ["AB| C".toList, "|".toList]).1 =
      ["AB".toList, "C".toList, "C".toList] ∧
    (TrainCtl.recvChunks [] ["AB|C|".toList]).1 =
      ["AB".toList, "C".toList] := by decide

open TrainCtl in
/-- C2: the claim states that `IN:<gpio>:<0|1>` is decoded as a sensor
report on both sides of the symmetric protocol.  Counterexample: the
server's dispatcher splits `"IN:5:1"` into three tokens, and its `IN` branch
demands exactly two, so it answers with the error frame `"IN:5:ERROR"`
instead of performing a sensor-report action, while the JMRI client decodes
the same frame as a sensor report. -/
theorem C2_counterexample_server_IN_error :
    processRecvMsg allOk ServerState.clean "IN:5:1".toList =
      .ok ServerState.clean [.send "IN:5:ERROR".toList] ∧
    clientProcessRecvMsg "IN:5:1".toList = [.sensorUpdate 5 true] := by decide

open TrainCtl in
/-- C4: every non-conforming frame is claimed to be answered with a
diagnostic frame containing the original text.  The frame `"FOO:1:2"`
(unknown command family) is dropped in complete silence: the generic-error
guard `cmdParams[0].startswith("OUT") and cmdParams[0].startswith("IN")` can
never be true, and no dispatch branch matches, so `processRecvMsg` returns
without sending anything. -/
theorem C4_unknown_family_dropped_silently :
    processRecvMsg allOk ServerState.clean "FOO:1:2".toList =
      .ok ServerState.clean [] := by decide

open TrainCtl in
/-- C5: no error while processing a frame is claimed to terminate the
owning thread, with servo write failures reported back as an Error.  In the
code the servo-angle write is outside every `try`, and `run`'s handlers
catch only socket errors: when the write for the frame
`OUT_TO:3[85][95]:1` raises, the thread dies with no error reply sent,
whereas under a succeeding oracle the same frame just writes angle 95 to
servo 3. -/
theorem C5_servo_write_failure_kills_thread :
    runIteration failWriteOrc initRun (.data "OUT_TO:3[85][95]:1|".toList) =
      .died [] (.servoWriteFail 3 95) ∧
    runIteration allOk initRun (.data "OUT_TO:3[85][95]:1|".toList) =
      .next
        { initRun with
            received := "|".toList
            serverSt := { ServerState.clean with serverTURNOUT := [3] } }
        [.servoAngle 3 95] false := by decide

open TrainCtl in
/-- C7 counterexample: the claim says that `k ≥ MAX_HEARTBEAT_FAIL + 1`
consecutive read timeouts produce exactly one dead-link transition.  Twelve
consecutive timeouts followed by a successful read produce two transitions
(at the 6th and at the 12th timeout), not one. -/
theorem C7_counterexample_two_transitions :
    runSeq allOk initRun (List.replicate 12 .timeout ++ [.data [' ']]) =
      some (initRun, 2, []) := by decide

open TrainCtl in
/-- C3 counterexample: `send` on a non-ACTIVE link is claimed to fail fast
and return not-sent, with at most a hard-capped wait.  The server's `send`
has no cap at all: with the link inactive it is still sleeping after 100
one-second waits (far beyond any stated cap), and if the link only becomes
active after 50 waits the call still goes on to write the message instead
of giving up. -/
theorem C3_counterexample_server_send_blocks :
    serverSend neverActive 100 "m".toList = none ∧
    serverSend lateActive 100 "m".toList = some ([.wire "m|".toList], 50) := by decide

open TrainCtl in
/-- C10: `stop()` always leaves the Link Manager with `isAtive = False` and
`exit = True` — whether or not closing the socket raises (including the
`sock is None` case) — so the run loop's `while not self.exit` guard stops
at its next check, the client's `send` reports not-sent without writing,
and the server's `send` leaves its wait loop at once and writes nothing. -/
theorem C10_stop_forces_inactive_exit (st : LinkFlags) (closeOk : Bool)
    (msg : Str) (ok : Bool) (fuel : Nat) :
    ((stop st closeOk).1).isAtive = false ∧
    ((stop st closeOk).1).exit = true ∧
    runLoopContinues (stop st closeOk).1 = false ∧
    clientSend (stop st closeOk).1 msg ok = ((stop st closeOk).1, [], false) ∧
    serverSend (fun _ => (stop st closeOk).1) (fuel + 1) msg = some ([], 0) :=
  ⟨rfl, rfl, rfl, rfl, rfl⟩

open TrainCtl in
/-- C8: a turnout state-change request is forwarded over the Link only if
the new commanded value differs from the last value this listener itself
sent (so reissuing the same command after a successful send produces no
further effect at all), and on a failed send both the listener's stored
value and the turnout's commanded state are set back to the event's old
value. -/
theorem C8_turnout_echo_suppression_rollback
    (l : TOListener) (oldV newV o2 : TState) (ok ok2 b : Bool) :
    ((TOEv.sendTurnout b) ∈ (propertyChange l oldV newV ok).2 →
      some newV ≠ l.turnoutCtrl) ∧
    ((propertyChange (propertyChange l oldV newV true).1 o2 newV ok2).2 = []) ∧
    (ok = false → (newV = .closed ∨ newV = .thrown) → some newV ≠ l.turnoutCtrl →
      (propertyChange l oldV newV ok).1 = { turnoutCtrl := some oldV } ∧
      (TOEv.setCommanded oldV) ∈ (propertyChange l oldV newV ok).2) := by
  refine ⟨?_, ?_, ?_⟩
  · intro hmem
    by_cases h : some newV = l.turnoutCtrl
    · rw [propertyChange, if_neg (by simp [h])] at hmem
      simp at hmem
    · exact h
  · have h1 : (propertyChange l oldV newV true).1.turnoutCtrl = some newV := by
      rw [propertyChange]
      by_cases h : some newV ≠ l.turnoutCtrl
      · rw [if_pos h]
        simp
      · rw [if_neg h]
        push_neg at h
        exact h.symm
    rw [propertyChange, if_neg (by rw [h1]; simp)]
  · intro hok hCT hne
    subst hok
    rcases hCT with h | h <;> subst h <;> simp [propertyChange, hne]

open TrainCtl in
/-- Counter dynamics of the run loop: starting from a failure count
`c ≤ 5`, a run of `k` consecutive read timeouts performs `(c + k) / 6`
dead-link transitions and leaves the counter at `(c + k) % 6`. -/
theorem runSeq_timeouts_aux (k : Nat) : ∀ c : Nat, c ≤ 5 →
    runSeq allOk ⟨true, [], c, ServerState.clean⟩ (List.replicate k .timeout) =
      some (⟨true, [], (c + k) % 6, ServerState.clean⟩, (c + k) / 6, []) := by
  induction k with
  | zero =>
    intro c hc
    have h1 : (c + 0) % 6 = c := by omega
    have h2 : (c + 0) / 6 = 0 := by omega
    rw [h1, h2]
    rfl
  | succ k ih =>
    intro c hc
    rw [List.replicate_succ]
    by_cases h5 : c = 5
    · subst h5
      have step : runIteration allOk ⟨true, [], 5, ServerState.clean⟩ .timeout =
          .next ⟨true, [], 0, ServerState.clean⟩ [] true := rfl
      simp only [runSeq, step, ih 0 (by omega)]
      have h2 : (5 + (k + 1)) % 6 = (0 + k) % 6 := by omega
      have h3 : (5 + (k + 1)) / 6 = 1 + (0 + k) / 6 := by omega
      rw [h2, h3]
      simp
    · have step : runIteration allOk ⟨true, [], c, ServerState.clean⟩ .timeout =
          .next ⟨true, [], c + 1, ServerState.clean⟩ [] false := by
        have hlt : ¬ (c + 1 > MAX_HEARTBEAT_FAIL) := by
          unfold MAX_HEARTBEAT_FAIL; omega
        simp only [runIteration]
        rw [if_neg hlt]
      simp only [runSeq, step, ih (c + 1) (by omega)]
      have h2 : (c + 1) + k = c + (k + 1) := by omega
      rw [h2]
      simp

open TrainCtl in
/-- Splitting a run of the receive loop over an append of outcome
sequences. -/
theorem runSeq_append_aux (orc : HwOracle) (xs ys : List ReadOutcome) :
    ∀ rs : RunState,
    runSeq orc rs (xs ++ ys) =
      match runSeq orc rs xs with
      | none => none
      | some (rs1, n, evs) =>
        match runSeq orc rs1 ys with
        | none => none
        | some (rs2, m, evs2) => some (rs2, n + m, evs ++ evs2) := by
  induction xs with
  | nil =>
    intro rs
    simp only [List.nil_append, runSeq]
    cases h : runSeq orc rs ys with
    | none => rfl
    | some r =>
      obtain ⟨rs2, m, evs2⟩ := r
      simp
  | cons o os ih =>
    intro rs
    simp only [List.cons_append, runSeq]
    cases hit : runIteration orc rs o with
    | died evs e => rfl
    | next rs1 evs t =>
      dsimp only
      simp only [List.append_eq]
      rw [ih rs1]
      cases h1 : runSeq orc rs1 os with
      | none => rfl
      | some r1 =>
        obtain ⟨rs2, n, evs1⟩ := r1
        dsimp only
        cases h2 : runSeq orc rs2 ys with
        | none => rfl
        | some r2 =>
          obtain ⟨rs3, m, evs2⟩ := r2
          simp [Nat.add_assoc, List.append_assoc]

open TrainCtl in
/-- A successful heartbeat-only read resets the failure counter and changes
nothing else. -/
theorem heartbeat_success_step (m : Nat) :
    runSeq allOk ⟨true, [], m, ServerState.clean⟩ [.data [' ']] =
      some (initRun, 0, []) := rfl

open TrainCtl in
/-- C7 (amended): for the run loop's consecutive-read-timeout counter, `k`
consecutive timeouts followed by a successful read produce exactly
`k / (MAX_HEARTBEAT_FAIL + 1)` dead-link transitions — none when
`k < MAX_HEARTBEAT_FAIL + 1`, exactly one when
`MAX_HEARTBEAT_FAIL + 1 ≤ k < 2 * (MAX_HEARTBEAT_FAIL + 1)` (it happens at
the `(MAX_HEARTBEAT_FAIL + 1)`-th timeout, where the counter first exceeds
the threshold), and more than one for larger `k` — and the counter is back
to 0 afterwards. -/
theorem C7_amended_transition_count (k : Nat) :
    runSeq allOk initRun (List.replicate k .timeout ++ [.data [' ']]) =
      some (initRun, k / 6, []) := by
  have h0 : initRun = (⟨true, [], 0, ServerState.clean⟩ : RunState) := rfl
  rw [h0, runSeq_append_aux, runSeq_timeouts_aux k 0 (by omega)]
  have hk : 0 + k = k := by omega
  rw [hk]
  dsimp only
  rw [heartbeat_success_step (k % 6)]
  simp
  exact h0.symm

open TrainCtl in
/-- The server `send` wait loop exits at the first check at which the link
is active or an exit was requested. -/
theorem serverSendLoop_reach (sched : Nat → LinkFlags) :
    ∀ (n t : Nat),
      (∀ j, j < n → (sched (t + j)).isAtive = false ∧ (sched (t + j)).exit = false) →
      ((sched (t + n)).isAtive = true ∨ (sched (t + n)).exit = true) →
      serverSendLoop sched (n + 1) t = some (t + n) := by
  intro n
  induction n with
  | zero =>
    intro t hpre hend
    simp only [serverSendLoop]
    rw [if_pos]
    · simp
    · rcases hend with h | h
      · left; rw [show t + 0 = t from rfl] at h; exact h
      · right; rw [show t + 0 = t from rfl] at h; exact h
  | succ n ih =>
    intro t hpre hend
    have h0 := hpre 0 (by omega)
    rw [show t + 0 = t from rfl] at h0
    rw [serverSendLoop]
    rw [if_neg (by simp [h0.1, h0.2])]
    have hres := ih (t + 1)
      (by
        intro j hj
        have hx := hpre (j + 1) (by omega)
        have e : t + (j + 1) = t + 1 + j := by omega
        rw [e] at hx
        exact hx)
      (by
        have e : t + (n + 1) = t + 1 + n := by omega
        rw [e] at hend
        exact hend)
    rw [hres]
    have e : t + 1 + n = t + (n + 1) := by omega
    rw [e]

open TrainCtl in
/-- C3 (amended): on the JMRI client, `send` fails fast — when the Link is
not ACTIVE it returns not-sent without writing anything, and when ACTIVE it
writes `message + "|"`.  On the RPi server, `send` does not fail fast and
has no cap: it sleeps until the link is active or an exit is requested, and
if the link becomes active only after `k` one-second waits — for any `k`
whatsoever — it still writes `message + "|"` then instead of giving up. -/
theorem C3_amended_send_semantics (st : LinkFlags) (msg : Str) (ok : Bool)
    (sched : Nat → LinkFlags) (k : Nat)
    (hpre : ∀ j, j < k → (sched j).isAtive = false ∧ (sched j).exit = false)
    (hact : (sched k).isAtive = true) :
    (st.isAtive = false → clientSend st msg ok = (st, [], false)) ∧
    (st.isAtive = true →
      ((clientSend st msg ok).2.1).headD .closedSock = .wire (msg ++ ['|'])) ∧
    serverSend sched (k + 1) msg = some ([.wire (msg ++ ['|'])], k) := by
  refine ⟨?_, ?_, ?_⟩
  · intro h
    simp [clientSend, h]
  · intro h
    cases ok <;> simp [clientSend, h]
  · have hloop : serverSendLoop sched (k + 1) 0 = some k := by
      have hr := serverSendLoop_reach sched k 0
        (by intro j hj; simpa using hpre j hj)
        (by left; simpa using hact)
      simpa using hr
    simp [serverSend, hloop, hact]

open TrainCtl in
/-- Witness for the amended C3 statement at a concrete schedule that
becomes active after two waits. -/
theorem C3_amended_witness :
    ((⟨false, false⟩ : LinkFlags).isAtive = false →
      clientSend ⟨false, false⟩ "m".toList true = (⟨false, false⟩, [], false)) ∧
    ((⟨false, false⟩ : LinkFlags).isAtive = true →
      ((clientSend ⟨false, false⟩ "m".toList true).2.1).headD .closedSock =
        .wire ("m".toList ++ ['|'])) ∧
    serverSend (fun t => ⟨decide (2 ≤ t), false⟩) (2 + 1) "m".toList =
      some ([.wire ("m".toList ++ ['|'])], 2) :=
  C3_amended_send_semantics ⟨false, false⟩ "m".toList true
    (fun t => ⟨decide (2 ≤ t), false⟩) 2 (by decide) (by decide)

open TrainCtl in
/-- `splitChar` never returns the empty list. -/
theorem splitChar_ne_nil (d : Char) (s : Str) : splitChar d s ≠ [] := by
  induction s with
  | nil => simp [splitChar]
  | cons c cs ih =>
    by_cases h : c = d
    · simp [splitChar, h]
    · simp only [splitChar, if_neg h]
      cases hs : splitChar d cs with
      | nil => simp
      | cons a as => simp

open TrainCtl in
/-- Prepending delimiter-free characters extends the first split field. -/
theorem splitChar_append_no_delim (d : Char) (s : Str) (hd : Str) (tl : List Str)
    (hs : splitChar d s = hd :: tl) :
    ∀ a : Str, (∀ c ∈ a, c ≠ d) → splitChar d (a ++ s) = (a ++ hd) :: tl := by
  intro a
  induction a with
  | nil => intro _; simpa using hs
  | cons c a ih =>
    intro h
    have hc : c ≠ d := h c (by simp)
    have ha : ∀ x ∈ a, x ≠ d := fun x hx => h x (by simp [hx])
    simp only [List.cons_append, splitChar, if_neg hc, List.append_eq]
    rw [ih ha]

open TrainCtl in
/-- A delimiter-free string splits into itself. -/
theorem splitChar_no_delim (d : Char) (a : Str) (h : ∀ c ∈ a, c ≠ d) :
    splitChar d a = [a] := by
  have h0 : splitChar d ([] : Str) = [] :: [] := rfl
  have := splitChar_append_no_delim d [] [] [] h0 a h
  simpa using this

open TrainCtl in
/-- Python `int` on a non-empty digit string yields its decimal value. -/
theorem pyIntDec_digits (g : Str) (h1 : g ≠ []) (h2 : g.all Char.isDigit = true) :
    pyIntDec g = some (digitsToNat g : Int) := by
  cases g with
  | nil => exact absurd rfl h1
  | cons c cs =>
    have hc : c.isDigit = true := by
      simp only [List.all_cons, Bool.and_eq_true] at h2
      exact h2.1
    have hcm : c ≠ '-' := by
      intro e
      rw [e] at hc
      exact absurd hc (by decide)
    have hcp : c ≠ '+' := by
      intro e
      rw [e] at hc
      exact absurd hc (by decide)
    simp [pyIntDec, if_neg hcm, if_neg hcp, h2]

open TrainCtl in
/-- Splitting a three-token `IN` frame around a colon-free gpio field. -/
theorem splitIN3 (g : Str) (hg : ∀ c ∈ g, c ≠ ':') (z : Char) (hz : z ≠ ':') :
    splitChar ':' ('I' :: 'N' :: ':' :: (g ++ [':', z])) = ["IN".toList, g, [z]] := by
  have hz1 : splitChar ':' ([':', z] : Str) = [] :: [[z]] := by
    simp [splitChar, hz]
  have hsg := splitChar_append_no_delim ':' [':', z] [] [[z]] hz1 g hg
  have hmid : splitChar ':' ((':' : Char) :: (g ++ [':', z])) = [] :: (g :: [[z]]) := by
    simp [splitChar, hsg]
  have hfin := splitChar_append_no_delim ':' (':' :: (g ++ [':', z])) []
    (g :: [[z]]) hmid ['I', 'N'] (by decide)
  simpa using hfin

open TrainCtl in
/-- Splitting a two-token `IN` frame around a colon-free gpio field. -/
theorem splitIN2 (g : Str) (hg : ∀ c ∈ g, c ≠ ':') :
    splitChar ':' ('I' :: 'N' :: ':' :: g) = ["IN".toList, g] := by
  have h1 : splitChar ':' g = [g] := splitChar_no_delim ':' g hg
  have hmid : splitChar ':' ((':' : Char) :: g) = [] :: [g] := by
    simp [splitChar, h1]
  have hfin := splitChar_append_no_delim ':' (':' :: g) [] [g] hmid ['I', 'N'] (by decide)
  simpa using hfin

open TrainCtl in
/-- C2 (amended): the wire protocol is not symmetric for `IN` frames.  The
JMRI client's dispatcher decodes `IN:<gpio>:<0|1>` as a sensor report and
performs the sensor update; the server's dispatcher demands exactly two
tokens for `IN`, answers `IN:<gpio>:<0|1>` with the error frame
`IN:<gpio>:ERROR`, and instead treats the two-token frame `IN:<gpio>` as a
sensor registration (configuring the GPIO as an input and immediately
reporting its level). -/
theorem C2_amended_IN_not_symmetric (g : Str) (lvl : Bool)
    (h1 : g ≠ []) (h2 : g.all Char.isDigit = true) :
    clientProcessRecvMsg ("IN:".toList ++ g ++ (if lvl then ":1".toList else ":0".toList)) =
      [.sensorUpdate (digitsToNat g : Int) lvl] ∧
    processRecvMsg allOk ServerState.clean
        ("IN:".toList ++ g ++ (if lvl then ":1".toList else ":0".toList)) =
      .ok ServerState.clean
        [.send ("IN:".toList ++ natToChars (digitsToNat g) ++ ":ERROR".toList)] ∧
    processRecvMsg allOk ServerState.clean ("IN:".toList ++ g) =
      .ok { ServerState.clean with gpioIN := [(digitsToNat g : Int)] }
        [.buttonNew (digitsToNat g : Int),
          .send ("IN:".toList ++ natToChars (digitsToNat g) ++ ":0".toList)] := by
  have hg : ∀ c ∈ g, c ≠ ':' := by
    intro c hcmem he
    have hd := List.all_eq_true.mp h2 c hcmem
    rw [he] at hd
    exact absurd hd (by decide)
  have hpy := pyIntDec_digits g h1 h2
  have hnn : ¬((digitsToNat g : Int) < 0) := by omega
  have hup : upperStr (['I', 'N'] : Str) = ['I', 'N'] := by decide
  refine ⟨?_, ?_, ?_⟩
  · cases lvl
    · have emsg : "IN:".toList ++ g ++ (if (false : Bool) then ":1".toList else ":0".toList) =
          'I' :: 'N' :: ':' :: (g ++ [':', '0']) := by simp
      rw [emsg]
      simp [clientProcessRecvMsg, splitIN3 g hg '0' (by decide), hpy, hup]
    · have emsg : "IN:".toList ++ g ++ (if (true : Bool) then ":1".toList else ":0".toList) =
          'I' :: 'N' :: ':' :: (g ++ [':', '1']) := by simp
      rw [emsg]
      simp [clientProcessRecvMsg, splitIN3 g hg '1' (by decide), hpy, hup]
  · cases lvl
    · have emsg : "IN:".toList ++ g ++ (if (false : Bool) then ":1".toList else ":0".toList) =
          'I' :: 'N' :: ':' :: (g ++ [':', '0']) := by simp
      rw [emsg]
      simp [processRecvMsg, handleIn, splitIN3 g hg '0' (by decide), hpy, hup,
        intToChars, hnn, natToChars, hasPre]
    · have emsg : "IN:".toList ++ g ++ (if (true : Bool) then ":1".toList else ":0".toList) =
          'I' :: 'N' :: ':' :: (g ++ [':', '1']) := by simp
      rw [emsg]
      simp [processRecvMsg, handleIn, splitIN3 g hg '1' (by decide), hpy, hup,
        intToChars, hnn, natToChars, hasPre]
  · have emsg2 : "IN:".toList ++ g = 'I' :: 'N' :: ':' :: g := by simp
    rw [emsg2]
    simp [processRecvMsg, handleIn, splitIN2 g hg, hpy, hup, intToChars, hnn,
      natToChars, allOk, ServerState.clean, hasPre]

open TrainCtl in
/-- Witness for the amended C2 statement at gpio `5`, level `1`. -/
theorem C2_amended_witness :
    clientProcessRecvMsg
        ("IN:".toList ++ "5".toList ++ (if (true : Bool) then ":1".toList else ":0".toList)) =
      [.sensorUpdate (digitsToNat "5".toList : Int) true] ∧
    processRecvMsg allOk ServerState.clean
        ("IN:".toList ++ "5".toList ++ (if (true : Bool) then ":1".toList else ":0".toList)) =
      .ok ServerState.clean
        [.send ("IN:".toList ++ natToChars (digitsToNat "5".toList) ++ ":ERROR".toList)] ∧
    processRecvMsg allOk ServerState.clean ("IN:".toList ++ "5".toList) =
      .ok { ServerState.clean with gpioIN := [(digitsToNat "5".toList : Int)] }
        [.buttonNew (digitsToNat "5".toList : Int),
          .send ("IN:".toList ++ natToChars (digitsToNat "5".toList) ++ ":0".toList)] :=
  C2_amended_IN_not_symmetric "5".toList true (by decide) (by decide)

open TrainCtl in
/-- Witness for the C8 statement: a first command on a fresh listener with a
failing send, rolled back, and the duplicate-suppression equation, all at
concrete values. -/
theorem C8_witness :
    ((TOEv.sendTurnout true) ∈
        (propertyChange ⟨none⟩ TState.unknown TState.closed false).2 →
      some TState.closed ≠ (⟨none⟩ : TOListener).turnoutCtrl) ∧
    ((propertyChange (propertyChange ⟨none⟩ TState.unknown TState.closed true).1
        TState.unknown TState.closed true).2 = []) ∧
    (false = false → (TState.closed = .closed ∨ TState.closed = .thrown) →
      some TState.closed ≠ (⟨none⟩ : TOListener).turnoutCtrl →
      (propertyChange ⟨none⟩ TState.unknown TState.closed false).1 =
        { turnoutCtrl := some TState.unknown } ∧
      (TOEv.setCommanded TState.unknown) ∈
        (propertyChange ⟨none⟩ TState.unknown TState.closed false).2) :=
  C8_turnout_echo_suppression_rollback ⟨none⟩ TState.unknown TState.closed
    TState.closed false true true

open TrainCtl in
/-- A successful dictionary lookup is a member. -/
theorem dictFind_mem {β : Type} (k : Str) (v : β) :
    ∀ d : List (Str × β), dictFind k d = some v → (k, v) ∈ d := by
  intro d
  induction d with
  | nil => intro h; simp [dictFind] at h
  | cons kv rest ih =>
    intro h
    obtain ⟨k2, v2⟩ := kv
    by_cases hk : k = k2
    · subst hk
      simp [dictFind] at h
      subst h
      exact List.mem_cons_self _ _
    · simp [dictFind, hk] at h
      exact List.mem_cons_of_mem _ (ih h)

open TrainCtl in
/-- A lookup succeeds exactly on the keys of the dictionary. -/
theorem dictFind_isSome_iff {β : Type} (k : Str) :
    ∀ d : List (Str × β), (dictFind k d).isSome = true ↔ k ∈ d.map Prod.fst := by
  intro d
  induction d with
  | nil => simp [dictFind]
  | cons kv rest ih =>
    obtain ⟨k2, v2⟩ := kv
    by_cases hk : k = k2
    · subst hk
      constructor
      · intro _
        simp only [List.map_cons, List.mem_cons]
        exact Or.inl trivial
      · intro _
        simp only [dictFind, if_true, Option.isSome_some]
    · simp only [dictFind, if_neg hk, List.map_cons, List.mem_cons, ih]
      constructor
      · exact fun h => Or.inr h
      · rintro (h | h)
        · exact absurd h hk
        · exact h

open TrainCtl in
/-- `dictErase` removes the key from the key list. -/
theorem dictErase_keys {β : Type} (k : Str) :
    ∀ d : List (Str × β), (dictErase k d).map Prod.fst = (d.map Prod.fst).erase k := by
  intro d
  induction d with
  | nil => simp [dictErase]
  | cons kv rest ih =>
    obtain ⟨k2, v2⟩ := kv
    by_cases hk : k = k2
    · subst hk
      simp [dictErase, List.erase_cons_head]
    · have hne : k2 ≠ k := fun e => hk e.symm
      simp [dictErase, hk, List.erase_cons, hne, ih]

open TrainCtl in
/-- Members of `dictErase` are members of the dictionary. -/
theorem dictErase_mem {β : Type} (k : Str) (kv : Str × β) :
    ∀ d : List (Str × β), kv ∈ dictErase k d → kv ∈ d := by
  intro d
  induction d with
  | nil => intro h; simp [dictErase] at h
  | cons kv2 rest ih =>
    intro h
    obtain ⟨k2, v2⟩ := kv2
    by_cases hk : k = k2
    · subst hk
      simp [dictErase] at h
      exact List.mem_cons_of_mem _ h
    · simp only [dictErase, if_neg hk] at h
      rcases List.mem_cons.mp h with h | h
      · exact h ▸ List.mem_cons_self _ _
      · exact List.mem_cons_of_mem _ (ih h)

open TrainCtl in
/-- Erasing a key from a distinct-key dictionary makes its lookup fail. -/
theorem dictFind_dictErase {β : Type} (k : Str) :
    ∀ d : List (Str × β), (d.map Prod.fst).Nodup →
      dictFind k (dictErase k d) = none := by
  intro d
  induction d with
  | nil => intro _; simp [dictErase, dictFind]
  | cons kv rest ih =>
    intro hnd
    obtain ⟨k2, v2⟩ := kv
    simp only [List.map_cons, List.nodup_cons] at hnd
    by_cases hk : k = k2
    · subst hk
      have he : dictErase k ((k, v2) :: rest) = rest := by simp [dictErase]
      rw [he]
      cases hfind : dictFind k rest with
      | none => rfl
      | some w =>
        exact absurd (List.mem_map_of_mem Prod.fst (dictFind_mem k w rest hfind)) hnd.1
    · simp [dictErase, dictFind, hk, ih hnd.2]

open TrainCtl in
/-- Overwriting an existing key keeps the key list unchanged. -/
theorem dictInsert_keys_present {β : Type} (k : Str) (v : β) :
    ∀ d : List (Str × β), (dictFind k d).isSome = true →
      (dictInsert k v d).map Prod.fst = d.map Prod.fst := by
  intro d
  induction d with
  | nil => intro h; simp [dictFind] at h
  | cons kv rest ih =>
    intro h
    obtain ⟨k2, v2⟩ := kv
    by_cases hk : k = k2
    · subst hk
      simp [dictInsert]
    · simp only [dictFind, if_neg hk] at h
      simp [dictInsert, hk, ih h]

open TrainCtl in
/-- Assigning a fresh key appends the pair at the end. -/
theorem dictInsert_absent {β : Type} (k : Str) (v : β) :
    ∀ d : List (Str × β), dictFind k d = none → dictInsert k v d = d ++ [(k, v)] := by
  intro d
  induction d with
  | nil => intro _; rfl
  | cons kv rest ih =>
    intro h
    obtain ⟨k2, v2⟩ := kv
    by_cases hk : k = k2
    · simp [dictFind, hk] at h
    · simp only [dictFind, if_neg hk] at h
      simp [dictInsert, hk, ih h]

open TrainCtl in
/-- Erasing a key removes exactly its value from the value list, when every
value records its own key. -/
theorem mapSnd_dictErase (k : Str) (trd : BlinkTask) :
    ∀ d : List (Str × BlinkTask), dictFind k d = some trd →
      (∀ kv ∈ d, kv.2.headId = kv.1) →
      (dictErase k d).map Prod.snd = (d.map Prod.snd).erase trd := by
  intro d
  induction d with
  | nil => intro h; simp [dictFind] at h
  | cons kv rest ih =>
    intro hfind hkeys
    obtain ⟨k2, v2⟩ := kv
    by_cases hk : k = k2
    · subst hk
      simp [dictFind] at hfind
      subst hfind
      simp [dictErase, List.erase_cons_head]
    · simp only [dictFind, if_neg hk] at hfind
      have hv2 : v2.headId = k2 := hkeys (k2, v2) (List.mem_cons_self _ _)
      have htrd : trd.headId = k := by
        have hmem := dictFind_mem k trd rest hfind
        exact hkeys (k, trd) (List.mem_cons_of_mem _ hmem)
      have hvne : v2 ≠ trd := by
        intro e
        rw [e] at hv2
        rw [htrd] at hv2
        exact hk hv2
      have hrest : ∀ kv ∈ rest, kv.2.headId = kv.1 :=
        fun kv hm => hkeys kv (List.mem_cons_of_mem _ hm)
      have hbne : (v2 == trd) = false := by
        simp [hvne]
      simp [dictErase, hk, List.erase_cons, hbne, ih hfind hrest]

open TrainCtl in
/-- A duplicate-free list whose members all equal `i` is `[]` or `[i]`. -/
theorem keys_all_eq (i : Str) :
    ∀ l : List Str, l.Nodup → (∀ k ∈ l, k = i) → l = [] ∨ l = [i] := by
  intro l
  cases l with
  | nil => intro _ _; exact Or.inl rfl
  | cons a t =>
    intro hnd hall
    have ha : a = i := hall a (List.mem_cons_self _ _)
    subst ha
    have ht : t = [] := by
      cases t with
      | nil => rfl
      | cons b u =>
        have hb : b = a := hall b (by simp)
        simp [List.nodup_cons, hb] at hnd
    subst ht
    exact Or.inr rfl

open TrainCtl in
/-- The bookkeeping invariant forces at most one live blink thread per
head id. -/
theorem goodSH_atMostOne (st : ServerState) (h : goodSH st) :
    atMostOnePerHead st := by
  obtain ⟨G1, G2, G3, G4⟩ := h
  have hmap : st.liveBlinkers.map (fun t => t.headId) = st.blinkThreads.map Prod.fst := by
    rw [G1, List.map_map]
    exact List.map_congr_left (fun kv hkv => G2 kv hkv)
  have hnd : (st.liveBlinkers.map (fun t => t.headId)).Nodup := by
    rw [hmap]; exact G3
  exact List.pairwise_map.mp hnd

open TrainCtl in
/-- Under a succeeding oracle, board bring-up always succeeds, never touches
the blinking bookkeeping and emits no blink events. -/
theorem shBoard_allOk (st : ServerState) (b : Nat) :
    ∃ st1 evs1, shBoard allOk st b = some (st1, evs1) ∧
      st1.blinkFlags = st.blinkFlags ∧ st1.blinkThreads = st.blinkThreads ∧
      st1.liveBlinkers = st.liveBlinkers ∧ blinkEvents evs1 = [] := by
  by_cases hb : b ∈ st.serverSignalHead
  · exact ⟨st, [], by simp [shBoard, hb], rfl, rfl, rfl, rfl⟩
  · refine ⟨{ st with serverSignalHead := st.serverSignalHead ++ [b] },
      [Ev.mcpNewBoard b] ++ (List.range 16).map (fun i => Ev.pinVal b i false),
      by simp [shBoard, hb, allOk], rfl, rfl, rfl, ?_⟩
    rw [blinkEvents, List.filter_eq_nil_iff]
    intro e he
    rcases List.mem_cons.mp he with h | h
    · subst h; simp [isBlinkEv]
    · obtain ⟨j, _, hj⟩ := List.mem_map.mp h
      rw [← hj]
      simp [isBlinkEv]

open TrainCtl in
/-- Under the bookkeeping invariant, the cancel-and-join phase succeeds,
preserves the invariant, leaves no registration for the head id, emits
exactly one cancel event when a blink thread existed, only removes live
threads, and empties the live set when every live thread belongs to this
head id. -/
theorem shCleanup_spec (st1 : ServerState) (i : Str) (h : goodSH st1) :
    ∃ st2 evs2, shCleanup st1 i = some (st2, evs2) ∧
      goodSH st2 ∧
      dictFind i st2.blinkFlags = none ∧
      dictFind i st2.blinkThreads = none ∧
      evs2 = (if (dictFind i st1.blinkFlags).isSome then [Ev.blinkCancel i] else []) ∧
      (∀ t ∈ st2.liveBlinkers, t ∈ st1.liveBlinkers) ∧
      ((∀ t ∈ st1.liveBlinkers, t.headId = i) → st2.liveBlinkers = []) := by
  obtain ⟨G1, G2, G3, G4⟩ := h
  cases hf : dictFind i st1.blinkFlags with
  | none =>
    have hfn : dictFind i st1.blinkThreads = none := by
      cases htq : dictFind i st1.blinkThreads with
      | none => rfl
      | some w =>
        have h1 : (dictFind i st1.blinkThreads).isSome = true := by rw [htq]; rfl
        have h2 := (dictFind_isSome_iff i st1.blinkThreads).mp h1
        rw [← G4] at h2
        have h3 := (dictFind_isSome_iff i st1.blinkFlags).mpr h2
        rw [hf] at h3
        simp at h3
    refine ⟨st1, [], by simp [shCleanup, hf], ⟨G1, G2, G3, G4⟩, hf, hfn,
      by simp [hf], fun t ht => ht, ?_⟩
    intro hall
    cases hl : st1.liveBlinkers with
    | nil => rfl
    | cons t rest =>
      exfalso
      have htmem : t ∈ st1.liveBlinkers := by rw [hl]; exact List.mem_cons_self _ _
      have hmapmem : t ∈ st1.blinkThreads.map Prod.snd := by rw [← G1]; exact htmem
      obtain ⟨kv, hkv, hkvt⟩ := List.mem_map.mp hmapmem
      have hk : kv.1 = i := by
        rw [← G2 kv hkv, hkvt]
        exact hall t htmem
      have hkeymem : i ∈ st1.blinkThreads.map Prod.fst := by
        rw [← hk]
        exact List.mem_map_of_mem Prod.fst hkv
      rw [← G4] at hkeymem
      have h3 := (dictFind_isSome_iff i st1.blinkFlags).mpr hkeymem
      rw [hf] at h3
      simp at h3
  | some flagv =>
    have h1 : (dictFind i st1.blinkFlags).isSome = true := by rw [hf]; rfl
    have h2 : i ∈ st1.blinkThreads.map Prod.fst := by
      rw [← G4]
      exact (dictFind_isSome_iff i st1.blinkFlags).mp h1
    have h3 : (dictFind i st1.blinkThreads).isSome = true :=
      (dictFind_isSome_iff i st1.blinkThreads).mpr h2
    cases ht : dictFind i st1.blinkThreads with
    | none => rw [ht] at h3; simp at h3
    | some trd =>
      have hinsKeys : (dictInsert i true st1.blinkFlags).map Prod.fst =
          st1.blinkFlags.map Prod.fst := dictInsert_keys_present i true st1.blinkFlags h1
      have hFlagsNodup : (st1.blinkFlags.map Prod.fst).Nodup := by rw [G4]; exact G3
      have hG1' : (st1.liveBlinkers.erase trd) =
          (dictErase i st1.blinkThreads).map Prod.snd := by
        rw [mapSnd_dictErase i trd st1.blinkThreads ht G2, G1]
      have hG2' : ∀ kv ∈ dictErase i st1.blinkThreads, kv.2.headId = kv.1 :=
        fun kv hkv => G2 kv (dictErase_mem i kv st1.blinkThreads hkv)
      have hG3' : ((dictErase i st1.blinkThreads).map Prod.fst).Nodup := by
        rw [dictErase_keys]
        exact G3.erase i
      have hG4' : (dictErase i (dictInsert i true st1.blinkFlags)).map Prod.fst =
          (dictErase i st1.blinkThreads).map Prod.fst := by
        rw [dictErase_keys, dictErase_keys, hinsKeys, G4]
      refine ⟨{ st1 with
          blinkFlags := dictErase i (dictInsert i true st1.blinkFlags)
          blinkThreads := dictErase i st1.blinkThreads
          liveBlinkers := st1.liveBlinkers.erase trd },
        [Ev.blinkCancel i],
        by simp [shCleanup, hf, ht], ⟨hG1', hG2', hG3', hG4'⟩, ?_, ?_,
        by simp [hf], ?_, ?_⟩
      · apply dictFind_dictErase
        rw [hinsKeys]
        exact hFlagsNodup
      · exact dictFind_dictErase i st1.blinkThreads G3
      · intro t htm
        exact List.mem_of_mem_erase htm
      · intro hall
        have hkeysEq : ∀ k ∈ st1.blinkThreads.map Prod.fst, k = i := by
          intro k hkmem
          obtain ⟨kv, hkv, hkfst⟩ := List.mem_map.mp hkmem
          have hv : kv.2 ∈ st1.liveBlinkers := by
            rw [G1]
            exact List.mem_map_of_mem Prod.snd hkv
          rw [← hkfst, ← G2 kv hkv]
          exact hall kv.2 hv
        rcases keys_all_eq i (st1.blinkThreads.map Prod.fst) G3 hkeysEq with hnil | hone
        · rw [hnil] at h2
          simp at h2
        · have hkeys2 : (dictErase i st1.blinkThreads).map Prod.fst = [] := by
            rw [dictErase_keys, hone, List.erase_cons_head]
          have hthreads2 : dictErase i st1.blinkThreads = [] :=
            List.map_eq_nil_iff.mp hkeys2
          rw [hG1', hthreads2]
          rfl

open TrainCtl in
/-- The aspect phase, started with no registration for the head id,
preserves the bookkeeping invariant, emits exactly one start event for a
flashing aspect and none otherwise, and appends exactly the new blink
thread to the live set for a flashing aspect. -/
theorem shAspect_spec (st2 : ServerState) (i : Str) (b r g : Nat) (a : Str)
    (h : goodSH st2) (hfa : dictFind i st2.blinkFlags = none)
    (hta : dictFind i st2.blinkThreads = none) :
    goodSH (shAspect st2 i b r g a).1 ∧
    blinkEvents (shAspect st2 i b r g a).2 =
      (if a = "fr".toList then [Ev.blinkStart i b r]
       else if a = "fg".toList then [Ev.blinkStart i b g] else []) ∧
    (shAspect st2 i b r g a).1.liveBlinkers =
      (if a = "fr".toList then st2.liveBlinkers ++ [⟨i, b, r⟩]
       else if a = "fg".toList then st2.liveBlinkers ++ [⟨i, b, g⟩]
       else st2.liveBlinkers) := by
  obtain ⟨G1, G2, G3, G4⟩ := h
  have hfkeys : dictInsert i false st2.blinkFlags = st2.blinkFlags ++ [(i, false)] :=
    dictInsert_absent i false st2.blinkFlags hfa
  have hikey : i ∉ st2.blinkThreads.map Prod.fst := by
    intro hmem
    have hx := (dictFind_isSome_iff i st2.blinkThreads).mpr hmem
    rw [hta] at hx
    simp at hx
  have hgood : ∀ p : Nat, goodSH { st2 with
      blinkFlags := dictInsert i false st2.blinkFlags
      blinkThreads := dictInsert i (⟨i, b, p⟩ : BlinkTask) st2.blinkThreads
      liveBlinkers := st2.liveBlinkers ++ [⟨i, b, p⟩] } := by
    intro p
    have htkeys : dictInsert i (⟨i, b, p⟩ : BlinkTask) st2.blinkThreads =
        st2.blinkThreads ++ [(i, ⟨i, b, p⟩)] := dictInsert_absent i _ st2.blinkThreads hta
    refine ⟨?_, ?_, ?_, ?_⟩
    · show st2.liveBlinkers ++ [(⟨i, b, p⟩ : BlinkTask)] =
        (dictInsert i (⟨i, b, p⟩ : BlinkTask) st2.blinkThreads).map Prod.snd
      rw [htkeys, List.map_append, ← G1]
      rfl
    · intro kv hkv
      rw [htkeys] at hkv
      rcases List.mem_append.mp hkv with hm | hm
      · exact G2 kv hm
      · simp only [List.mem_singleton] at hm
        subst hm
        rfl
    · show ((dictInsert i (⟨i, b, p⟩ : BlinkTask) st2.blinkThreads).map Prod.fst).Nodup
      rw [htkeys, List.map_append]
      simp [List.nodup_append, G3, hikey]
    · show (dictInsert i false st2.blinkFlags).map Prod.fst =
        (dictInsert i (⟨i, b, p⟩ : BlinkTask) st2.blinkThreads).map Prod.fst
      rw [hfkeys, htkeys, List.map_append, List.map_append, G4]
      rfl
  by_cases h1 : a = ['r']
  · subst h1
    exact ⟨⟨G1, G2, G3, G4⟩, by simp [shAspect, blinkEvents, isBlinkEv],
      by simp [shAspect]⟩
  by_cases h2 : a = ['g']
  · subst h2
    exact ⟨⟨G1, G2, G3, G4⟩, by simp [shAspect, blinkEvents, isBlinkEv],
      by simp [shAspect]⟩
  by_cases h3 : a = ['f', 'r']
  · subst h3
    refine ⟨?_, by simp [shAspect, blinkEvents, isBlinkEv], by simp [shAspect]⟩
    have := hgood r
    simpa [shAspect] using this
  by_cases h4 : a = ['f', 'g']
  · subst h4
    refine ⟨?_, by simp [shAspect, blinkEvents, isBlinkEv], by simp [shAspect]⟩
    have := hgood g
    simpa [shAspect] using this
  · refine ⟨?_, ?_, ?_⟩
    · have he : (shAspect st2 i b r g a).1 = st2 := by
        simp [shAspect, h1, h2, h3, h4]
      rw [he]
      exact ⟨G1, G2, G3, G4⟩
    · simp [shAspect, h1, h2, h3, h4, blinkEvents, isBlinkEv]
    · simp [shAspect, h1, h2, h3, h4]

open TrainCtl in
/-- One dispatched `OUT_SH` command, under a succeeding oracle: the
bookkeeping invariant is preserved; the blink events are exactly a cancel
(when a thread for this head id existed) followed by a start (when the
aspect is flashing) — in that order; the live set only gains the new blink
thread; and when every live thread already belonged to this head id, a
flashing command leaves exactly the new thread live. -/
theorem shStep_spec (st : ServerState) (c : SHCmd) (h : goodSH st) :
    goodSH (shStep st c).stateOf ∧
    blinkEvents (shStep st c).evsOf =
      (if (dictFind c.headId st.blinkFlags).isSome then [Ev.blinkCancel c.headId] else []) ++
      (if c.app = "fr".toList then [Ev.blinkStart c.headId c.board c.red]
       else if c.app = "fg".toList then [Ev.blinkStart c.headId c.board c.green] else []) ∧
    (∀ t ∈ (shStep st c).stateOf.liveBlinkers, t ∈ st.liveBlinkers ∨ t = c.task) ∧
    ((∀ t ∈ st.liveBlinkers, t.headId = c.headId) → flashingApp c.app →
      (shStep st c).stateOf.liveBlinkers = [c.task]) := by
  obtain ⟨st1, evs1, hb, e1, e2, e3, hbe⟩ := shBoard_allOk st c.board
  have h1 : goodSH st1 := by
    obtain ⟨G1, G2, G3, G4⟩ := h
    exact ⟨by rw [e3, e2]; exact G1, by rw [e2]; exact G2, by rw [e2]; exact G3,
      by rw [e1, e2]; exact G4⟩
  obtain ⟨st2, evs2, hc, h2, hf2, ht2, hevs2, hmono2, hall2⟩ :=
    shCleanup_spec st1 c.headId h1
  obtain ⟨h3, hevs3, hlive3⟩ :=
    shAspect_spec st2 c.headId c.board c.red c.green c.app h2 hf2 ht2
  have hstate : (shStep st c).stateOf =
      (shAspect st2 c.headId c.board c.red c.green c.app).1 := by
    simp only [shStep, shDispatch, hb, hc]
    rfl
  have hpin : allOk.pinOk = true := rfl
  have hevsTot : blinkEvents (shStep st c).evsOf =
      blinkEvents evs1 ++ (blinkEvents evs2 ++
        blinkEvents (shAspect st2 c.headId c.board c.red c.green c.app).2) := by
    simp only [shStep, shDispatch, hb, hc, hpin]
    simp [blinkEvents, DispatchRes.evsOf, isBlinkEv, List.filter_append,
      List.append_assoc]
  refine ⟨?_, ?_, ?_, ?_⟩
  · rw [hstate]
    exact h3
  · rw [hevsTot, hbe, hevs2, hevs3, e1]
    simp only [List.nil_append]
    split <;> simp [blinkEvents, isBlinkEv]
  · intro t ht
    rw [hstate] at ht
    by_cases hfr : c.app = "fr".toList
    · rw [hlive3] at ht
      simp only [hfr, if_pos rfl] at ht
      rcases List.mem_append.mp ht with hm | hm
      · exact Or.inl (e3 ▸ hmono2 t hm)
      · right
        simp only [List.mem_singleton] at hm
        subst hm
        simp [SHCmd.task, hfr]
    · by_cases hfg : c.app = "fg".toList
      · rw [hlive3] at ht
        simp only [hfr, hfg, if_neg, if_pos rfl] at ht
        rcases List.mem_append.mp ht with hm | hm
        · exact Or.inl (e3 ▸ hmono2 t hm)
        · right
          simp only [List.mem_singleton] at hm
          subst hm
          simp [SHCmd.task, hfr, hfg]
      · rw [hlive3] at ht
        simp only [hfr, hfg, if_neg] at ht
        exact Or.inl (e3 ▸ hmono2 t ht)
  · intro hall hflash
    have hall1 : ∀ t ∈ st1.liveBlinkers, t.headId = c.headId := by
      intro t htm
      rw [e3] at htm
      exact hall t htm
    have hlive2nil : st2.liveBlinkers = [] := hall2 hall1
    rw [hstate, hlive3, hlive2nil]
    rcases hflash with hfr | hfg
    · simp [hfr, SHCmd.task]
    · by_cases hfr : c.app = "fr".toList
      · simp [hfr, SHCmd.task]
      · simp [hfr, hfg, SHCmd.task]

open TrainCtl in
/-- `getLastD` of a non-empty list ignores the default. -/
theorem getLastD_ne_nil {α : Type} (l : List α) (hl : l ≠ []) (a b : α) :
    l.getLastD a = l.getLastD b := by
  cases l with
  | nil => exact absurd rfl hl
  | cons x xs =>
    rw [List.getLastD_cons, List.getLastD_cons]

open TrainCtl in
/-- Running a non-empty sequence of flashing commands for one head id from a
state whose live blink threads all belong to that id preserves the
invariant and leaves exactly the last command's blink thread live. -/
theorem shRun_flashing (i : Str) (dflt : SHCmd) :
    ∀ (cmds : List SHCmd) (st : ServerState),
      goodSH st → (∀ t ∈ st.liveBlinkers, t.headId = i) →
      (∀ x ∈ cmds, x.headId = i ∧ flashingApp x.app) → cmds ≠ [] →
      goodSH (shRun cmds st) ∧
      (shRun cmds st).liveBlinkers = [(cmds.getLastD dflt).task] := by
  intro cmds
  induction cmds with
  | nil => intro st _ _ _ hne; exact absurd rfl hne
  | cons c rest ih =>
    intro st hst hlive hall _
    have hc := hall c (List.mem_cons_self _ _)
    obtain ⟨hgood', _, _, hflash'⟩ := shStep_spec st c hst
    have hlive' : (shStep st c).stateOf.liveBlinkers = [c.task] :=
      hflash' (by intro t ht; rw [hc.1]; exact hlive t ht) hc.2
    have hrun : shRun (c :: rest) st = shRun rest (shStep st c).stateOf := rfl
    cases rest with
    | nil =>
      rw [hrun]
      refine ⟨hgood', ?_⟩
      show (shStep st c).stateOf.liveBlinkers = [((c :: []).getLastD dflt).task]
      rw [hlive']
      rfl
    | cons c2 rest2 =>
      have hres := ih (shStep st c).stateOf hgood'
        (by
          intro t ht
          rw [hlive'] at ht
          simp only [List.mem_singleton] at ht
          subst ht
          show c.task.headId = i
          rw [show c.task.headId = c.headId from rfl]
          exact hc.1)
        (fun x hx => hall x (List.mem_cons_of_mem _ hx)) (by simp)
      rw [hrun]
      refine ⟨hres.1, ?_⟩
      rw [hres.2]
      have hLast : (c2 :: rest2).getLastD dflt = ((c :: c2 :: rest2).getLastD dflt) := by
        have h1 : ((c :: c2 :: rest2).getLastD dflt) = (c2 :: rest2).getLastD c :=
          List.getLastD_cons _ _ _
        rw [h1]
        exact getLastD_ne_nil (c2 :: rest2) (by simp) dflt c
      rw [hLast]

open TrainCtl in
/-- C6: at most one blink thread exists per signal-head id at any time.
Every dispatched `OUT_SH` command first cancels-and-joins any existing
blink thread for the head id — whatever the target aspect — before
starting a new one (the blink-event trace of one step is a cancel, then a
start for flashing aspects only, in that order), the step preserves the
bookkeeping invariant and hence the at-most-one-blinker property, and
after a non-empty sequence of flashing commands for the same head id,
exactly one live blink thread remains, the one of the last command. -/
theorem C6_at_most_one_blinker
    (st : ServerState) (c : SHCmd) (i : Str) (cmds : List SHCmd)
    (hst : goodSH st)
    (hne : cmds ≠ [])
    (hall : ∀ x ∈ cmds, x.headId = i ∧ flashingApp x.app) :
    (goodSH (shStep st c).stateOf ∧ atMostOnePerHead (shStep st c).stateOf) ∧
    blinkEvents (shStep st c).evsOf =
      (if (dictFind c.headId st.blinkFlags).isSome then [Ev.blinkCancel c.headId] else []) ++
      (if c.app = "fr".toList then [Ev.blinkStart c.headId c.board c.red]
       else if c.app = "fg".toList then [Ev.blinkStart c.headId c.board c.green] else []) ∧
    atMostOnePerHead (shRun cmds ServerState.clean) ∧
    (shRun cmds ServerState.clean).liveBlinkers =
      [(cmds.getLastD ⟨[], 0, 0, 0, []⟩).task] := by
  obtain ⟨hg, he, _, _⟩ := shStep_spec st c hst
  have hclean : goodSH ServerState.clean := by decide
  obtain ⟨hg2, hl2⟩ := shRun_flashing i ⟨[], 0, 0, 0, []⟩ cmds ServerState.clean hclean
    (by intro t ht; simp [ServerState.clean] at ht) hall hne
  exact ⟨⟨hg, goodSH_atMostOne _ hg⟩, he, goodSH_atMostOne _ hg2, hl2⟩

open TrainCtl in
/-- Witness for the C6 statement: a flashing-red then flashing-green
command for head `H` on board `0x24` (pins 6 and 14) from a clean state. -/
theorem C6_at_most_one_blinker_witness :
    (goodSH (shStep ServerState.clean ⟨"H".toList, 36, 6, 14, "fr".toList⟩).stateOf ∧
      atMostOnePerHead (shStep ServerState.clean ⟨"H".toList, 36, 6, 14, "fr".toList⟩).stateOf) ∧
    blinkEvents (shStep ServerState.clean ⟨"H".toList, 36, 6, 14, "fr".toList⟩).evsOf =
      (if (dictFind ("H".toList) ServerState.clean.blinkFlags).isSome
        then [Ev.blinkCancel "H".toList] else []) ++
      (if "fr".toList = "fr".toList then [Ev.blinkStart "H".toList 36 6]
       else if "fr".toList = "fg".toList then [Ev.blinkStart "H".toList 36 14] else []) ∧
    atMostOnePerHead (shRun [⟨"H".toList, 36, 6, 14, "fr".toList⟩,
      ⟨"H".toList, 36, 6, 14, "fg".toList⟩] ServerState.clean) ∧
    (shRun [⟨"H".toList, 36, 6, 14, "fr".toList⟩,
      ⟨"H".toList, 36, 6, 14, "fg".toList⟩] ServerState.clean).liveBlinkers =
      [(([⟨"H".toList, 36, 6, 14, "fr".toList⟩,
        ⟨"H".toList, 36, 6, 14, "fg".toList⟩] : List SHCmd).getLastD ⟨[], 0, 0, 0, []⟩).task] :=
  C6_at_most_one_blinker ServerState.clean ⟨"H".toList, 36, 6, 14, "fr".toList⟩
    "H".toList
    [⟨"H".toList, 36, 6, 14, "fr".toList⟩, ⟨"H".toList, 36, 6, 14, "fg".toList⟩]
    (by decide) (by decide) (by decide)
